import Mathlib

/-!
Verification of the `moat.bms.sched` charge/discharge optimizer.

The development shallowly embeds `control.py` over exact rationals:

* `FutureData` and `Hardware` mirror the forecast point and hardware model.
* `Var` names the LP decision variables created by `Model._setup`;
  `VarDecl` records a variable together with its bounds (`none` stands for
  an infinite bound), and `Constr` records a linear constraint as its two
  bounds plus an association list of per-variable coefficients.
  `setCoeff` has the overwrite semantics of `Constraint.SetCoefficient`.
* `Model.setup` replays the construction loop of `Model._setup`,
  including the arbitrage guard, the equal-price perturbation (which is a
  visible update of the caller's forecast list, kept in the `data` field),
  and the two charge-valuation coefficient injections.
* `Model.propose` / `Model.proposed` mirror the two extraction entry
  points; the external LP engine is abstracted as a function
  `Model → SolveResult` whose reported status the code never inspects.
* `setupSpec` is a direct (loop-free) description of the constructed LP,
  proved equal to `Model.setup` on guard-passing input, and the claims are
  settled against it.
-/

namespace BmsSched

/-- Projected data at one point in time (`FutureData` in `control.py`). -/
structure FutureData where
  price_buy : ℚ
  price_sell : ℚ
  load : ℚ
  pv : ℚ
deriving DecidableEq, Repr

/-- The static hardware model consumed by `Model._setup`. -/
structure Hardware where
  capacity : ℚ
  batt_min_soc : ℚ
  batt_max_soc : ℚ
  batt_max_chg : ℚ
  batt_max_dis : ℚ
  batt_eff_chg : ℚ
  batt_eff_dis : ℚ
  inv_max_chg : ℚ
  inv_max_dis : ℚ
  inv_eff_chg : ℚ
  inv_eff_dis : ℚ
  grid_max_in : ℚ
  grid_max_out : ℚ
deriving DecidableEq, Repr

/-- Names of the LP variables created by `Model._setup`. -/
inductive Var where
  | capInit : Var
  | cap : Nat → Var
  | bChg : Nat → Var
  | bDis : Nat → Var
  | sIn : Nat → Var
  | iChg : Nat → Var
  | iDis : Nat → Var
  | lOut : Nat → Var
  | gIn : Nat → Var
  | gOut : Nat → Var
  | money : Nat → Var
deriving DecidableEq, Repr

/-- A variable declaration: `solver.NumVar(lo, hi, name)`.
`none` encodes an infinite bound (`solver.infinity()`). -/
structure VarDecl where
  name : Var
  lo : Option ℚ
  hi : Option ℚ
deriving DecidableEq, Repr

/-- A linear constraint `solver.Constraint(lo, hi)` together with the
coefficients assigned by `SetCoefficient` calls. -/
structure Constr where
  lo : ℚ
  hi : ℚ
  coeffs : List (Var × ℚ)
deriving DecidableEq, Repr

/-- Embedding of `Constraint.SetCoefficient`: assigning a coefficient
replaces any previous coefficient of the same variable. -/
def setCoeff (c : Constr) (v : Var) (q : ℚ) : Constr :=
  { c with coeffs := c.coeffs.filter (fun p => decide (p.1 ≠ v)) ++ [(v, q)] }

/-- The coefficient a constraint carries for a variable (0 when absent). -/
def Constr.coeff (c : Constr) (v : Var) : ℚ :=
  ((c.coeffs.filter (fun p => decide (p.1 = v))).map (fun p => p.2)).sum

/-- Error raised by the arbitrage guard in `Model._setup`
(`raise ValueError(f"At {i}: buy ... < sell ...")`). -/
structure ArbitrageViolation where
  index : Nat
  buy : ℚ
  sell : ℚ
deriving DecidableEq, Repr

/-- Result status reported by the external LP engine. -/
inductive SolverStatus where
  | optimal : SolverStatus
  | feasible : SolverStatus
  | infeasible : SolverStatus
  | unbounded : SolverStatus
  | abnormal : SolverStatus
  | notSolved : SolverStatus
deriving DecidableEq, Repr

/-- Outcome of one `solver.Solve()` call: the reported status and the
per-variable solution values. -/
structure SolveResult where
  status : SolverStatus
  value : Var → ℚ

/-- State of a constructed `Model` object: the scalar attributes, the
post-construction state of the caller's forecast list (`data`), the LP
variables and constraints, the objective coefficients, and the variable
references the extraction methods keep (`g_in`, `g_out`, `cap`, `money`
for period 0 and the whole-horizon lists). -/
structure Model where
  hardware : Hardware
  per_hour : ℚ
  chg_inter : ℚ
  chg_last : ℚ
  data : List FutureData
  cap_init : VarDecl
  constr_init : Constr
  vars : List VarDecl
  battery : List Constr
  dc : List Constr
  ac : List Constr
  price : List Constr
  obj : List (Var × ℚ)
  g_ins : List Var
  g_outs : List Var
  caps : List Var
  moneys : List Var
  g_in0 : Option Var
  g_out0 : Option Var
  cap0 : Option Var
  money0 : Option Var
  maximize : Bool
  n : Nat
deriving DecidableEq, Repr

attribute [ext] Model

/-- The predecessor of period `i` in the battery-balance chain:
`cap_init` for period 0, the previous period's `cap` otherwise. -/
def prevCap : Nat → Var
  | 0 => Var.capInit
  | Nat.succ i => Var.cap i

/-- The ten variables `Model._setup` creates for one period, in creation
order, with the bounds taken from the source. -/
def periodVars (hw : Hardware) (ph : ℚ) (dt : FutureData) (i : Nat) : List VarDecl :=
  [ ⟨Var.cap i, some (hw.capacity * hw.batt_min_soc), some (hw.capacity * hw.batt_max_soc)⟩,
    ⟨Var.bChg i, some 0, some (hw.batt_max_chg / ph)⟩,
    ⟨Var.bDis i, some 0, some (hw.batt_max_dis / ph)⟩,
    ⟨Var.sIn i, some 0, some (dt.pv / ph)⟩,
    ⟨Var.iChg i, some 0, some (hw.inv_max_chg / ph)⟩,
    ⟨Var.iDis i, some 0, some (hw.inv_max_dis / ph)⟩,
    ⟨Var.lOut i, some dt.load, some (dt.load / ph)⟩,
    ⟨Var.gIn i, some 0, some (hw.grid_max_in / ph)⟩,
    ⟨Var.gOut i, some 0, some (hw.grid_max_out / ph)⟩,
    ⟨Var.money i, none, none⟩ ]

/-- Battery-balance constraint of period `i`, built by the same
`SetCoefficient` sequence as the source. -/
def batteryConstr (hw : Hardware) (i : Nat) : Constr :=
  setCoeff (setCoeff (setCoeff (setCoeff ⟨0, 0, []⟩
    (prevCap i) 1)
    (Var.bChg i) hw.batt_eff_chg)
    (Var.bDis i) (-1))
    (Var.cap i) (-1)

/-- DC-bus balance constraint of period `i`. -/
def dcConstr (hw : Hardware) (i : Nat) : Constr :=
  setCoeff (setCoeff (setCoeff (setCoeff (setCoeff ⟨0, 0, []⟩
    (Var.sIn i) 1)
    (Var.bDis i) hw.batt_eff_dis)
    (Var.iChg i) hw.inv_eff_chg)
    (Var.bChg i) (-1))
    (Var.iDis i) (-1)

/-- AC-bus balance constraint of period `i`. -/
def acConstr (hw : Hardware) (i : Nat) : Constr :=
  setCoeff (setCoeff (setCoeff (setCoeff (setCoeff ⟨0, 0, []⟩
    (Var.gIn i) 1)
    (Var.iDis i) hw.inv_eff_dis)
    (Var.gOut i) (-1))
    (Var.lOut i) (-1))
    (Var.iChg i) (-1)

/-- Money-definition constraint of period `i`, before any charge-valuation
injection. -/
def priceConstr (dt : FutureData) (i : Nat) : Constr :=
  setCoeff (setCoeff (setCoeff ⟨0, 0, []⟩
    (Var.gOut i) dt.price_sell)
    (Var.gIn i) (-dt.price_buy))
    (Var.money i) (-1)

/-- Appends everything one loop iteration of `Model._setup` creates for
period `i` (with the already-perturbed forecast point `dt`). -/
def addPeriod (hw : Hardware) (ph : ℚ) (m : Model) (i : Nat) (dt : FutureData) : Model :=
  { m with
    data := m.data ++ [dt]
    vars := m.vars ++ periodVars hw ph dt i
    battery := m.battery ++ [batteryConstr hw i]
    dc := m.dc ++ [dcConstr hw i]
    ac := m.ac ++ [acConstr hw i]
    price := m.price ++ [priceConstr dt i]
    obj := m.obj ++ [(Var.money i, 1)]
    g_ins := m.g_ins ++ [Var.gIn i]
    g_outs := m.g_outs ++ [Var.gOut i]
    caps := m.caps ++ [Var.cap i]
    moneys := m.moneys ++ [Var.money i]
    g_in0 := if i = 0 then some (Var.gIn i) else m.g_in0
    g_out0 := if i = 0 then some (Var.gOut i) else m.g_out0
    cap0 := if i = 0 then some (Var.cap i) else m.cap0
    money0 := if i = 0 then some (Var.money i) else m.money0
    n := m.n + 1 }

/-- Replaces the last constraint `c` of a list by `setCoeff c v q`; this is
how `_pr.SetCoefficient(cap, ...)` acts on the recorded price relations. -/
def patchLast (l : List Constr) (v : Var) (q : ℚ) : List Constr :=
  match l with
  | [] => []
  | [c] => [setCoeff c v q]
  | c :: rest => c :: patchLast rest v q

/-- The `if i:` step at the top of the construction loop: inject the
`chg_inter / capacity` coefficient for the previous period's `cap` into the
previous period's money relation. -/
def entryPatch (hw : Hardware) (ci : ℚ) (i : Nat) (m : Model) : Model :=
  if i = 0 then m
  else { m with price := patchLast m.price (Var.cap (i - 1)) (ci / hw.capacity) }

/-- The construction loop of `Model._setup`: at counter `i`, first the
`chg_inter` injection for period `i-1`, then the arbitrage guard on the
next forecast point (with the equal-price perturbation), then the period's
variables and constraints. -/
def setupLoop (hw : Hardware) (ph ci : ℚ) : Nat → List FutureData → Model →
    Except ArbitrageViolation Model
  | i, [], m => .ok (entryPatch hw ci i m)
  | i, dt :: rest, m =>
    let m1 := entryPatch hw ci i m
    if dt.price_buy = dt.price_sell then
      setupLoop hw ph ci (i + 1) rest
        (addPeriod hw ph m1 i { dt with price_buy := dt.price_buy * (1001 / 1000) })
    else if dt.price_buy < dt.price_sell then
      .error ⟨i, dt.price_buy, dt.price_sell⟩
    else
      setupLoop hw ph ci (i + 1) rest (addPeriod hw ph m1 i dt)

/-- Initial model state: the `cap_init` variable with bounds
`[0.05 * capacity, 0.95 * capacity]`, the init equality constraint with
coefficient 1 on `cap_init`, and empty per-period collections. -/
def initModel (hw : Hardware) (ph ci cl : ℚ) : Model :=
  { hardware := hw
    per_hour := ph
    chg_inter := ci
    chg_last := cl
    data := []
    cap_init := ⟨Var.capInit, some (hw.capacity * (5 / 100)), some (hw.capacity * (95 / 100))⟩
    constr_init := setCoeff ⟨0, 0, []⟩ Var.capInit 1
    vars := []
    battery := []
    dc := []
    ac := []
    price := []
    obj := []
    g_ins := []
    g_outs := []
    caps := []
    moneys := []
    g_in0 := none
    g_out0 := none
    cap0 := none
    money0 := none
    maximize := false
    n := 0 }

/-- Final steps of `Model._setup` after the loop: when at least one period
was built (`_pr is not None`), inject the `chg_last / capacity` coefficient
for the last period's `cap` into the last money relation; then
`SetMaximization`. -/
def finishSetup (hw : Hardware) (cl : ℚ) (m : Model) : Model :=
  { (if m.n = 0 then m
     else { m with price := patchLast m.price (Var.cap (m.n - 1)) (cl / hw.capacity) })
    with maximize := true }

/-- Embedding of `Model.__init__` / `Model._setup`: run the construction
loop, then inject the `chg_last / capacity` coefficient into the last money
relation and set the objective to maximization. -/
def Model.setup (hw : Hardware) (data : List FutureData) (ph ci cl : ℚ) :
    Except ArbitrageViolation Model :=
  (setupLoop hw ph ci 0 data (initModel hw ph ci cl)).map (finishSetup hw cl)

/-- The model state after `propose`/`proposed` set both bounds of the init
equality constraint to `soc * capacity`. -/
def proposeModel (m : Model) (soc : ℚ) : Model :=
  { m with constr_init :=
      { m.constr_init with
        lo := soc * m.hardware.capacity
        hi := soc * m.hardware.capacity } }

/-- Embedding of `Model.propose`: rebind the init constraint, solve, and
read period 0's solution values; the solver's reported status is not
inspected.  The mutated model state is returned alongside the result. -/
def Model.propose (m : Model) (solve : Model → SolveResult) (soc : ℚ) :
    Model × Option (ℚ × ℚ × ℚ) :=
  let m2 := proposeModel m soc
  let r := solve m2
  (m2,
    match m.g_in0, m.g_out0, m.cap0, m.money0 with
    | some gi, some go, some cp, some mo =>
      some ((r.value gi - r.value go) * m.per_hour,
            r.value cp / m.hardware.capacity,
            r.value mo)
    | _, _, _, _ => none)

/-- Embedding of `Model.proposed`: the same solve step, then one result
triple per period from the zipped whole-horizon variable lists. -/
def Model.proposed (m : Model) (solve : Model → SolveResult) (soc : ℚ) :
    Model × List (ℚ × ℚ × ℚ) :=
  let m2 := proposeModel m soc
  let r := solve m2
  (m2,
    ((m.g_ins.zip (m.g_outs.zip (m.caps.zip m.moneys))).map
      (fun p =>
        ((r.value p.1 - r.value p.2.1) * m.per_hour,
         r.value p.2.2.1 / m.hardware.capacity,
         r.value p.2.2.2))))

/-- The equal-price perturbation applied to a forecast point by the
arbitrage guard (identity on points with distinct prices). -/
def perturb (dt : FutureData) : FutureData :=
  if dt.price_buy = dt.price_sell then
    { dt with price_buy := dt.price_buy * (1001 / 1000) }
  else dt

/-- First forecast point (with its index, counting from `i`) violating the
arbitrage guard, if any. -/
def firstBad : Nat → List FutureData → Option (Nat × FutureData)
  | _, [] => none
  | i, dt :: rest =>
    if dt.price_buy < dt.price_sell then some (i, dt) else firstBad (i + 1) rest

/-- List `[f i, f (i+1), ..., f (i+n-1)]`. -/
def natList {α : Type} (f : Nat → α) : Nat → Nat → List α
  | _, 0 => []
  | i, Nat.succ n => f i :: natList f (i + 1) n

/-- Maps `f` over a forecast list together with the running period index. -/
def dataList {α : Type} (f : Nat → FutureData → α) : Nat → List FutureData → List α
  | _, [] => []
  | i, dt :: rest => f i dt :: dataList f (i + 1) rest

/-- Direct description of the LP `Model.setup` constructs from a
guard-passing forecast list. -/
def setupSpec (hw : Hardware) (data : List FutureData) (ph ci cl : ℚ) : Model :=
  { hardware := hw
    per_hour := ph
    chg_inter := ci
    chg_last := cl
    data := data.map perturb
    cap_init := ⟨Var.capInit, some (hw.capacity * (5 / 100)), some (hw.capacity * (95 / 100))⟩
    constr_init := setCoeff ⟨0, 0, []⟩ Var.capInit 1
    vars := (dataList (fun k dtk => periodVars hw ph (perturb dtk) k) 0 data).flatten
    battery := natList (batteryConstr hw) 0 data.length
    dc := natList (dcConstr hw) 0 data.length
    ac := natList (acConstr hw) 0 data.length
    price := patchLast
      (dataList (fun k dtk =>
        setCoeff (priceConstr (perturb dtk) k) (Var.cap k) (ci / hw.capacity)) 0 data)
      (Var.cap (data.length - 1)) (cl / hw.capacity)
    obj := natList (fun k => (Var.money k, 1)) 0 data.length
    g_ins := natList Var.gIn 0 data.length
    g_outs := natList Var.gOut 0 data.length
    caps := natList Var.cap 0 data.length
    moneys := natList Var.money 0 data.length
    g_in0 := if data.length = 0 then none else some (Var.gIn 0)
    g_out0 := if data.length = 0 then none else some (Var.gOut 0)
    cap0 := if data.length = 0 then none else some (Var.cap 0)
    money0 := if data.length = 0 then none else some (Var.money 0)
    maximize := true
    n := data.length }

/-- Value of a linear expression under an assignment of the variables. -/
def evalConstr (a : Var → ℚ) (c : Constr) : ℚ :=
  (c.coeffs.map (fun p => p.2 * a p.1)).sum

/-- An assignment respects a variable's bounds. -/
def VarDecl.sat (d : VarDecl) (a : Var → ℚ) : Prop :=
  (∀ q, d.lo = some q → q ≤ a d.name) ∧ (∀ q, d.hi = some q → a d.name ≤ q)

/-- An assignment satisfies a constraint. -/
def Constr.sat (c : Constr) (a : Var → ℚ) : Prop :=
  c.lo ≤ evalConstr a c ∧ evalConstr a c ≤ c.hi

/-- Feasibility of the whole LP held by a model state. -/
def Feasible (m : Model) (a : Var → ℚ) : Prop :=
  m.cap_init.sat a ∧ (∀ d ∈ m.vars, d.sat a) ∧ m.constr_init.sat a ∧
  (∀ c ∈ m.battery, c.sat a) ∧ (∀ c ∈ m.dc, c.sat a) ∧
  (∀ c ∈ m.ac, c.sat a) ∧ (∀ c ∈ m.price, c.sat a)

instance {ε α : Type} [DecidableEq ε] [DecidableEq α] : DecidableEq (Except ε α) := fun x y =>
  match x, y with
  | .ok a, .ok b =>
    if h : a = b then .isTrue (by rw [h]) else .isFalse (by simp [h])
  | .error e, .error f =>
    if h : e = f then .isTrue (by rw [h]) else .isFalse (by simp [h])
  | .ok _, .error _ => .isFalse (by simp)
  | .error _, .ok _ => .isFalse (by simp)

/-! ### Basic lemmas about the list helpers -/

theorem natList_length {α : Type} (f : Nat → α) (i n : Nat) : (natList f i n).length = n := by
  induction n generalizing i with
  | zero => rfl
  | succ n ih => simp [natList, ih]

theorem natList_getElem? {α : Type} (f : Nat → α) (i n j : Nat) (h : j < n) :
    (natList f i n)[j]? = some (f (i + j)) := by
  induction n generalizing i j with
  | zero => omega
  | succ n ih =>
    cases j with
    | zero => simp [natList]
    | succ j =>
      simp only [natList, List.getElem?_cons_succ]
      rw [ih _ _ (by omega)]
      congr 2
      omega

theorem dataList_length {α : Type} (f : Nat → FutureData → α) (i : Nat)
    (data : List FutureData) : (dataList f i data).length = data.length := by
  induction data generalizing i with
  | nil => rfl
  | cons dt rest ih => simp [dataList, ih]

theorem dataList_getElem? {α : Type} (f : Nat → FutureData → α) (i : Nat)
    (data : List FutureData) (j : Nat) :
    (dataList f i data)[j]? = (data[j]?).map (fun dt => f (i + j) dt) := by
  induction data generalizing i j with
  | nil => simp [dataList]
  | cons dt rest ih =>
    cases j with
    | zero => simp [dataList]
    | succ j =>
      simp only [dataList, List.getElem?_cons_succ]
      rw [ih]
      have h2 : i + 1 + j = i + (j + 1) := by omega
      rw [h2]

theorem mem_dataList {α : Type} (f : Nat → FutureData → α) (i : Nat)
    (data : List FutureData) (a : α) :
    a ∈ dataList f i data ↔ ∃ j dt, data[j]? = some dt ∧ a = f (i + j) dt := by
  constructor
  · intro h
    obtain ⟨j, hj⟩ := List.mem_iff_getElem?.mp h
    rw [dataList_getElem?] at hj
    obtain ⟨dt, hdt, hfd⟩ := Option.map_eq_some'.mp hj
    exact ⟨j, dt, hdt, hfd.symm⟩
  · rintro ⟨j, dt, hdt, rfl⟩
    apply List.mem_iff_getElem?.mpr ⟨j, ?_⟩
    rw [dataList_getElem?, hdt]
    rfl

/-! ### Lemmas about `setCoeff` and `patchLast` -/

theorem setCoeff_setCoeff (c : Constr) (v : Var) (a b : ℚ) :
    setCoeff (setCoeff c v a) v b = setCoeff c v b := by
  simp only [setCoeff, List.filter_append]
  have h1 : (([(v, a)] : List (Var × ℚ)).filter (fun p => decide (p.1 ≠ v))) = [] := by
    simp
  rw [h1, List.append_nil, List.filter_filter]
  simp [Bool.and_self]

theorem setCoeff_of_forall_ne (c : Constr) (v : Var) (q : ℚ)
    (h : ∀ p ∈ c.coeffs, p.1 ≠ v) :
    setCoeff c v q = ⟨c.lo, c.hi, c.coeffs ++ [(v, q)]⟩ := by
  have hf : c.coeffs.filter (fun p => decide (p.1 ≠ v)) = c.coeffs :=
    List.filter_eq_self.mpr (fun p hp => by simpa using h p hp)
  simp only [setCoeff, hf]

theorem coeff_setCoeff (c : Constr) (v : Var) (q : ℚ) :
    (setCoeff c v q).coeff v = q := by
  simp only [Constr.coeff, setCoeff, List.filter_append, List.filter_filter]
  have h1 : (c.coeffs.filter fun p => decide (p.1 = v) && decide (p.1 ≠ v)) = [] := by
    apply List.filter_eq_nil_iff.mpr
    intro p _
    by_cases h : p.1 = v <;> simp [h]
  rw [h1]
  simp

theorem patchLast_append (l : List Constr) (c : Constr) (v : Var) (q : ℚ) :
    patchLast (l ++ [c]) v q = l ++ [setCoeff c v q] := by
  induction l with
  | nil => rfl
  | cons x l ih =>
    cases l with
    | nil => rfl
    | cons y t => simpa [patchLast] using ih

theorem patchLast_getElem? (l : List Constr) (v : Var) (q : ℚ) (j : Nat) :
    (patchLast l v q)[j]? =
      if j + 1 = l.length then (l[j]?).map (fun c => setCoeff c v q) else l[j]? := by
  induction l generalizing j with
  | nil => simp [patchLast]
  | cons x l ih =>
    cases l with
    | nil =>
      cases j with
      | zero => simp [patchLast]
      | succ j => simp [patchLast]
    | cons y t =>
      cases j with
      | zero => simp [patchLast]
      | succ j =>
        simp only [patchLast, List.getElem?_cons_succ, List.length_cons]
        rw [ih]
        by_cases hj : j = t.length
        · rw [if_pos (by simp only [List.length_cons]; omega),
            if_pos (by omega)]
        · rw [if_neg (by simp only [List.length_cons]; omega),
            if_neg (by omega)]

/-! ### Lemmas about `firstBad` -/

theorem firstBad_none_iff (i : Nat) (data : List FutureData) :
    firstBad i data = none ↔ ∀ dt ∈ data, ¬ dt.price_buy < dt.price_sell := by
  induction data generalizing i with
  | nil => simp [firstBad]
  | cons dt rest ih =>
    by_cases h : dt.price_buy < dt.price_sell
    · simp [firstBad, h]
    · simp only [firstBad, if_neg h, ih, List.mem_cons]
      constructor
      · rintro hall dt' (rfl | hm)
        · exact h
        · exact hall dt' hm
      · intro hall dt' hm
        exact hall dt' (Or.inr hm)

theorem firstBad_some_mem (i : Nat) (data : List FutureData) (j : Nat) (dtb : FutureData)
    (h : firstBad i data = some (j, dtb)) :
    dtb ∈ data ∧ dtb.price_buy < dtb.price_sell := by
  induction data generalizing i with
  | nil => simp [firstBad] at h
  | cons dt rest ih =>
    by_cases hb : dt.price_buy < dt.price_sell
    · simp only [firstBad, if_pos hb, Option.some.injEq, Prod.mk.injEq] at h
      obtain ⟨-, rfl⟩ := h
      exact ⟨List.mem_cons_self dt rest, hb⟩
    · simp only [firstBad, if_neg hb] at h
      obtain ⟨hm, hlt⟩ := ih _ h
      exact ⟨List.mem_cons_of_mem dt hm, hlt⟩

/-! ### Characterization of the construction loop -/

theorem setupLoop_err (hw : Hardware) (ph ci : ℚ) (rest : List FutureData) :
    ∀ (i : Nat) (m : Model) (j : Nat) (dtb : FutureData),
    firstBad i rest = some (j, dtb) →
    setupLoop hw ph ci i rest m = .error ⟨j, dtb.price_buy, dtb.price_sell⟩ := by
  induction rest with
  | nil =>
    intro i m j dtb h
    simp [firstBad] at h
  | cons dt rest ih =>
    intro i m j dtb h
    by_cases heq : dt.price_buy = dt.price_sell
    · have hnb : ¬ dt.price_buy < dt.price_sell := by
        rw [heq]
        exact lt_irrefl _
      simp only [firstBad, if_neg hnb] at h
      simp only [setupLoop, if_pos heq]
      exact ih _ _ _ _ h
    · by_cases hlt : dt.price_buy < dt.price_sell
      · simp only [firstBad, if_pos hlt, Option.some.injEq, Prod.mk.injEq] at h
        obtain ⟨rfl, rfl⟩ := h
        simp [setupLoop, heq, hlt]
      · simp only [firstBad, if_neg hlt] at h
        simp only [setupLoop, if_neg heq, if_neg hlt]
        exact ih _ _ _ _ h

theorem setupLoop_ok (hw : Hardware) (ph ci : ℚ) (rest : List FutureData) :
    ∀ (i : Nat) (m : Model) (P : List Constr) (c : Constr),
    m.price = P ++ [c] →
    firstBad (i + 1) rest = none →
    setupLoop hw ph ci (i + 1) rest m = .ok
      { m with
        data := m.data ++ rest.map perturb
        vars := m.vars ++
          (dataList (fun k dtk => periodVars hw ph (perturb dtk) k) (i + 1) rest).flatten
        battery := m.battery ++ natList (batteryConstr hw) (i + 1) rest.length
        dc := m.dc ++ natList (dcConstr hw) (i + 1) rest.length
        ac := m.ac ++ natList (acConstr hw) (i + 1) rest.length
        price := P ++ (setCoeff c (Var.cap i) (ci / hw.capacity) ::
          dataList (fun k dtk =>
            setCoeff (priceConstr (perturb dtk) k) (Var.cap k) (ci / hw.capacity)) (i + 1) rest)
        obj := m.obj ++ natList (fun k => (Var.money k, (1 : ℚ))) (i + 1) rest.length
        g_ins := m.g_ins ++ natList Var.gIn (i + 1) rest.length
        g_outs := m.g_outs ++ natList Var.gOut (i + 1) rest.length
        caps := m.caps ++ natList Var.cap (i + 1) rest.length
        moneys := m.moneys ++ natList Var.money (i + 1) rest.length
        n := m.n + rest.length } := by
  induction rest with
  | nil =>
    intro i m P c hp _
    simp only [setupLoop, entryPatch, if_neg (Nat.succ_ne_zero i)]
    simp only [Except.ok.injEq]
    apply Model.ext <;>
      simp [hp, patchLast_append, natList, dataList]
  | cons dt rest ih =>
    intro i m P c hp hfb
    have hnb : ¬ dt.price_buy < dt.price_sell := by
      intro hlt
      simp [firstBad, if_pos hlt] at hfb
    have hfb2 : firstBad (i + 1 + 1) rest = none := by
      simpa [firstBad, if_neg hnb] using hfb
    have hep : entryPatch hw ci (i + 1) m =
        { m with price := P ++ [setCoeff c (Var.cap i) (ci / hw.capacity)] } := by
      simp only [entryPatch, if_neg (Nat.succ_ne_zero i), hp, Nat.add_sub_cancel,
        patchLast_append]
    by_cases heq : dt.price_buy = dt.price_sell
    · simp only [setupLoop, if_pos heq, hep]
      rw [ih (i + 1) _ (P ++ [setCoeff c (Var.cap i) (ci / hw.capacity)])
        (priceConstr { dt with price_buy := dt.price_buy * (1001 / 1000) } (i + 1))
        (by simp [addPeriod]) hfb2]
      simp only [Except.ok.injEq]
      apply Model.ext <;>
        simp [addPeriod, natList, dataList, perturb, heq, List.append_assoc] <;>
        omega
    · simp only [setupLoop, if_neg heq, if_neg hnb, hep]
      rw [ih (i + 1) _ (P ++ [setCoeff c (Var.cap i) (ci / hw.capacity)])
        (priceConstr dt (i + 1))
        (by simp [addPeriod]) hfb2]
      simp only [Except.ok.injEq]
      apply Model.ext <;>
        simp [addPeriod, natList, dataList, perturb, heq, List.append_assoc] <;>
        omega

theorem setup_err (hw : Hardware) (data : List FutureData) (ph ci cl : ℚ) (j : Nat)
    (dtb : FutureData) (h : firstBad 0 data = some (j, dtb)) :
    Model.setup hw data ph ci cl = .error ⟨j, dtb.price_buy, dtb.price_sell⟩ := by
  unfold Model.setup
  rw [setupLoop_err hw ph ci data 0 _ j dtb h]
  rfl

theorem setup_ok (hw : Hardware) (data : List FutureData) (ph ci cl : ℚ)
    (h : firstBad 0 data = none) :
    Model.setup hw data ph ci cl = .ok (setupSpec hw data ph ci cl) := by
  cases data with
  | nil => rfl
  | cons dt0 rest =>
    have hnb : ¬ dt0.price_buy < dt0.price_sell := by
      intro hlt
      simp [firstBad, if_pos hlt] at h
    have hfb1 : firstBad (0 + 1) rest = none := by
      simpa [firstBad, if_neg hnb] using h
    unfold Model.setup
    by_cases heq : dt0.price_buy = dt0.price_sell
    · rw [show setupLoop hw ph ci 0 (dt0 :: rest) (initModel hw ph ci cl) =
          setupLoop hw ph ci (0 + 1) rest (addPeriod hw ph (initModel hw ph ci cl) 0
            { dt0 with price_buy := dt0.price_buy * (1001 / 1000) }) from by
          simp [setupLoop, entryPatch, heq]]
      rw [setupLoop_ok hw ph ci rest 0 _ []
        (priceConstr { dt0 with price_buy := dt0.price_buy * (1001 / 1000) } 0)
        (by simp [addPeriod, initModel]) hfb1]
      simp only [Except.map, Except.ok.injEq, finishSetup]
      rw [if_neg (by simp [addPeriod, initModel])]
      apply Model.ext <;>
        simp [addPeriod, initModel, setupSpec, natList, dataList, perturb, heq,
          List.append_assoc] <;>
        omega
    · rw [show setupLoop hw ph ci 0 (dt0 :: rest) (initModel hw ph ci cl) =
          setupLoop hw ph ci (0 + 1) rest (addPeriod hw ph (initModel hw ph ci cl) 0 dt0)
          from by
          simp [setupLoop, entryPatch, heq, hnb]]
      rw [setupLoop_ok hw ph ci rest 0 _ [] (priceConstr dt0 0)
        (by simp [addPeriod, initModel]) hfb1]
      simp only [Except.map, Except.ok.injEq, finishSetup]
      rw [if_neg (by simp [addPeriod, initModel])]
      apply Model.ext <;>
        simp [addPeriod, initModel, setupSpec, natList, dataList, perturb, heq,
          List.append_assoc] <;>
        omega

theorem setup_ok_inv (hw : Hardware) (data : List FutureData) (ph ci cl : ℚ) (m : Model)
    (hok : Model.setup hw data ph ci cl = .ok m) :
    firstBad 0 data = none ∧ m = setupSpec hw data ph ci cl := by
  cases hfb : firstBad 0 data with
  | none =>
    rw [setup_ok hw data ph ci cl hfb] at hok
    refine ⟨rfl, ?_⟩
    injection hok with h
    exact h.symm
  | some jdt =>
    obtain ⟨j, dtb⟩ := jdt
    rw [setup_err hw data ph ci cl j dtb hfb] at hok
    exact absurd hok (by simp)

/-! ### Explicit coefficient lists of the per-period constraints -/

theorem batteryConstr_eq (hw : Hardware) (i : Nat) :
    batteryConstr hw i = ⟨0, 0, [(prevCap i, 1), (Var.bChg i, hw.batt_eff_chg),
      (Var.bDis i, -1), (Var.cap i, -1)]⟩ := by
  cases i <;> simp [batteryConstr, setCoeff, prevCap, List.filter]

theorem dcConstr_eq (hw : Hardware) (i : Nat) :
    dcConstr hw i = ⟨0, 0, [(Var.sIn i, 1), (Var.bDis i, hw.batt_eff_dis),
      (Var.iChg i, hw.inv_eff_chg), (Var.bChg i, -1), (Var.iDis i, -1)]⟩ := by
  simp [dcConstr, setCoeff, List.filter]

theorem acConstr_eq (hw : Hardware) (i : Nat) :
    acConstr hw i = ⟨0, 0, [(Var.gIn i, 1), (Var.iDis i, hw.inv_eff_dis),
      (Var.gOut i, -1), (Var.lOut i, -1), (Var.iChg i, -1)]⟩ := by
  simp [acConstr, setCoeff, List.filter]

theorem priceConstr_eq (dt : FutureData) (i : Nat) :
    priceConstr dt i = ⟨0, 0, [(Var.gOut i, dt.price_sell), (Var.gIn i, -dt.price_buy),
      (Var.money i, -1)]⟩ := by
  simp [priceConstr, setCoeff, List.filter]

/-! ### Concrete instances used to witness the claims -/

/-- A small concrete hardware model (10 kWh battery, unit efficiencies). -/
def hwW : Hardware :=
  ⟨10000, 1 / 10, 9 / 10, 5000, 5000, 1, 1, 3000, 3000, 1, 1, 10000, 10000⟩

/-- One-period forecast with strictly separated prices. -/
def dataW1 : List FutureData := [⟨3 / 10, 1 / 10, 500, 2000⟩]

/-- Two-period forecast with strictly separated prices. -/
def dataW2 : List FutureData := [⟨3 / 10, 1 / 10, 500, 2000⟩, ⟨2 / 5, 1 / 5, 400, 1000⟩]

/-- One-period forecast whose point has equal buy and sell prices. -/
def dataW10 : List FutureData := [⟨1 / 5, 1 / 5, 100, 50⟩]

/-- The model built from `dataW1` at one period per hour. -/
def mW1 : Model := setupSpec hwW dataW1 1 0 0

/-- The model built from `dataW2` with nonzero charge valuations. -/
def mW2 : Model := setupSpec hwW dataW2 1 (1 / 2) (1 / 4)

/-- The model built from `dataW1` at two periods per hour. -/
def mW7 : Model := setupSpec hwW dataW1 2 0 0

/-- The model built from the equal-price forecast `dataW10`. -/
def mW10 : Model := setupSpec hwW dataW10 1 0 0

theorem setup_mW1 : Model.setup hwW dataW1 1 0 0 = .ok mW1 :=
  setup_ok _ _ _ _ _ (by norm_num [firstBad, dataW1])

theorem setup_mW2 : Model.setup hwW dataW2 1 (1 / 2) (1 / 4) = .ok mW2 :=
  setup_ok _ _ _ _ _ (by norm_num [firstBad, dataW2])

theorem setup_mW7 : Model.setup hwW dataW1 2 0 0 = .ok mW7 :=
  setup_ok _ _ _ _ _ (by norm_num [firstBad, dataW1])

theorem setup_mW10 : Model.setup hwW dataW10 1 0 0 = .ok mW10 :=
  setup_ok _ _ _ _ _ (by norm_num [firstBad, dataW10])

/-- A solver oracle reporting success with the all-zero assignment. -/
def solveZero : Model → SolveResult := fun _ => ⟨SolverStatus.optimal, fun _ => 0⟩

/-- A solver oracle reporting infeasibility. -/
def solveInf : Model → SolveResult := fun _ => ⟨SolverStatus.infeasible, fun _ => 0⟩

/-! ### Claims -/

/-- Claim C1: for every non-empty forecast sequence and every period
`i < N`, the builder creates the battery-balance equality constraint
(both bounds zero) `cap_{i-1} + b_chg_i * batt_eff_chg - b_dis_i - cap_i = 0`,
where the predecessor of period 0 is the synthetic `cap_init` variable, so
each period's ending charge is chained to its predecessor's. -/
theorem C1_battery_chain (hw : Hardware) (data : List FutureData) (ph ci cl : ℚ)
    (m : Model) (i : Nat)
    (hok : Model.setup hw data ph ci cl = .ok m) (hi : i < data.length) :
    m.battery[i]? = some ⟨0, 0, [(prevCap i, 1), (Var.bChg i, hw.batt_eff_chg),
      (Var.bDis i, -1), (Var.cap i, -1)]⟩ ∧
    prevCap 0 = Var.capInit ∧ prevCap (i + 1) = Var.cap i ∧
    m.battery.length = data.length := by
  obtain ⟨hfb, rfl⟩ := setup_ok_inv hw data ph ci cl m hok
  refine ⟨?_, rfl, rfl, ?_⟩
  · simp only [setupSpec]
    rw [natList_getElem? _ _ _ _ hi]
    simp [batteryConstr_eq]
  · simp [setupSpec, natList_length]

/-- Claim C1 witness at a concrete two-period model. -/
theorem C1_witness :
    (Model.setup hwW dataW2 1 (1 / 2) (1 / 4) = .ok mW2 ∧ 0 < dataW2.length) ∧
    (mW2.battery[0]? = some ⟨0, 0, [(prevCap 0, 1), (Var.bChg 0, hwW.batt_eff_chg),
        (Var.bDis 0, -1), (Var.cap 0, -1)]⟩ ∧
      prevCap 0 = Var.capInit ∧ prevCap (0 + 1) = Var.cap 0 ∧
      mW2.battery.length = dataW2.length) :=
  ⟨⟨setup_mW2, by decide⟩,
   C1_battery_chain hwW dataW2 1 (1 / 2) (1 / 4) mW2 0 setup_mW2 (by decide)⟩

/-- Claim C5: construction fails (with an `ArbitrageViolation`) exactly
when some forecast point has `price_buy < price_sell`; when no point does,
it succeeds and every point with `price_buy = price_sell` has its
`price_buy` multiplied by `1.001` (the 0.1 percent perturbation), as
recorded by `perturb`. -/
theorem C5_arbitrage_guard (hw : Hardware) (data : List FutureData) (ph ci cl : ℚ) :
    ((∃ e, Model.setup hw data ph ci cl = .error e) ↔
      ∃ dt ∈ data, dt.price_buy < dt.price_sell) ∧
    ((∀ dt ∈ data, ¬ dt.price_buy < dt.price_sell) →
      ∃ m, Model.setup hw data ph ci cl = .ok m ∧ m.data = data.map perturb) ∧
    (∀ dt : FutureData, dt.price_buy = dt.price_sell →
      perturb dt = { dt with price_buy := dt.price_buy * (1001 / 1000) }) := by
  refine ⟨⟨?_, ?_⟩, ?_, ?_⟩
  · rintro ⟨e, he⟩
    cases hfb : firstBad 0 data with
    | none =>
      rw [setup_ok hw data ph ci cl hfb] at he
      exact absurd he (by simp)
    | some jdt =>
      obtain ⟨hm, hlt⟩ := firstBad_some_mem 0 data jdt.1 jdt.2 (by rw [hfb])
      exact ⟨jdt.2, hm, hlt⟩
  · rintro ⟨dt, hm, hlt⟩
    cases hfb : firstBad 0 data with
    | none => exact absurd hlt ((firstBad_none_iff 0 data).mp hfb dt hm)
    | some jdt =>
      exact ⟨⟨jdt.1, jdt.2.price_buy, jdt.2.price_sell⟩,
        setup_err hw data ph ci cl jdt.1 jdt.2 (by rw [hfb])⟩
  · intro hall
    exact ⟨setupSpec hw data ph ci cl,
      setup_ok hw data ph ci cl ((firstBad_none_iff 0 data).mpr hall), rfl⟩
  · intro dt heq
    simp [perturb, heq]

/-- Claim C5 witness at concrete forecasts: the guard-passing forecast
builds, and an equal-price point is perturbed. -/
theorem C5_witness :
    ((∃ e, Model.setup hwW dataW10 1 0 0 = .error e) ↔
      ∃ dt ∈ dataW10, dt.price_buy < dt.price_sell) ∧
    ((∀ dt ∈ dataW10, ¬ dt.price_buy < dt.price_sell) →
      ∃ m, Model.setup hwW dataW10 1 0 0 = .ok m ∧ m.data = dataW10.map perturb) ∧
    (∀ dt : FutureData, dt.price_buy = dt.price_sell →
      perturb dt = { dt with price_buy := dt.price_buy * (1001 / 1000) }) :=
  C5_arbitrage_guard hwW dataW10 1 0 0

/-- Claim C10: a forecast point with `price_buy = price_sell` is visibly
mutated by construction: the model's view of the caller's forecast list
holds the point with `price_buy` multiplied by `1.001`. -/
theorem C10_data_mutated (hw : Hardware) (data : List FutureData) (ph ci cl : ℚ)
    (m : Model) (i : Nat) (dt : FutureData)
    (hok : Model.setup hw data ph ci cl = .ok m)
    (hdt : data[i]? = some dt) (heq : dt.price_buy = dt.price_sell) :
    m.data[i]? = some { dt with price_buy := dt.price_buy * (1001 / 1000) } := by
  obtain ⟨hfb, rfl⟩ := setup_ok_inv hw data ph ci cl m hok
  simp [setupSpec, List.getElem?_map, hdt, perturb, heq]

/-- Claim C10 witness: the equal-price point of `dataW10` is stored
perturbed in the constructed model. -/
theorem C10_witness :
    (Model.setup hwW dataW10 1 0 0 = .ok mW10 ∧
      dataW10[0]? = some ⟨1 / 5, 1 / 5, 100, 50⟩ ∧
      (1 : ℚ) / 5 = 1 / 5) ∧
    mW10.data[0]? = some { FutureData.mk (1 / 5) (1 / 5) 100 50 with
      price_buy := (1 / 5 : ℚ) * (1001 / 1000) } :=
  ⟨⟨setup_mW10, rfl, rfl⟩,
   C10_data_mutated hwW dataW10 1 0 0 mW10 0 ⟨1 / 5, 1 / 5, 100, 50⟩ setup_mW10 rfl rfl⟩

theorem spec_price_getElem? (hw : Hardware) (data : List FutureData) (ph ci cl : ℚ)
    (i : Nat) :
    (setupSpec hw data ph ci cl).price[i]? =
      (data[i]?).map (fun dt0 =>
        setCoeff (priceConstr (perturb dt0) i) (Var.cap i)
          ((if i + 1 = data.length then cl else ci) / hw.capacity)) := by
  simp only [setupSpec]
  rw [patchLast_getElem?, dataList_length, dataList_getElem?]
  by_cases hlast : i + 1 = data.length
  · rw [if_pos hlast]
    cases hd : data[i]? with
    | none => simp
    | some dt0 =>
      have hidx : data.length - 1 = i := by omega
      simp [hidx, setCoeff_setCoeff, if_pos hlast]
  · rw [if_neg hlast]
    cases hd : data[i]? with
    | none => simp
    | some dt0 => simp [if_neg hlast]

/-- Claim C2: for every period of the constructed horizon, the DC-bus,
AC-bus and money relations are equality constraints (both bounds zero)
with exactly the coefficients of the source: the money relation is created
from the point's (post-guard) prices and later receives only the
charge-valuation coefficient on that period's `cap`. -/
theorem C2_bus_and_money (hw : Hardware) (data : List FutureData) (ph ci cl : ℚ)
    (m : Model) (i : Nat) (dt : FutureData)
    (hok : Model.setup hw data ph ci cl = .ok m)
    (hdt : m.data[i]? = some dt) :
    m.dc[i]? = some ⟨0, 0, [(Var.sIn i, 1), (Var.bDis i, hw.batt_eff_dis),
      (Var.iChg i, hw.inv_eff_chg), (Var.bChg i, -1), (Var.iDis i, -1)]⟩ ∧
    m.ac[i]? = some ⟨0, 0, [(Var.gIn i, 1), (Var.iDis i, hw.inv_eff_dis),
      (Var.gOut i, -1), (Var.lOut i, -1), (Var.iChg i, -1)]⟩ ∧
    m.price[i]? = some (setCoeff ⟨0, 0, [(Var.gOut i, dt.price_sell),
      (Var.gIn i, -dt.price_buy), (Var.money i, -1)]⟩ (Var.cap i)
      ((if i + 1 = data.length then cl else ci) / hw.capacity)) := by
  obtain ⟨hfb, rfl⟩ := setup_ok_inv hw data ph ci cl m hok
  simp only [setupSpec] at hdt
  rw [List.getElem?_map] at hdt
  obtain ⟨dt0, hd0, hp0⟩ := Option.map_eq_some'.mp hdt
  have hi : i < data.length := by
    by_contra hge
    push_neg at hge
    rw [List.getElem?_eq_none hge] at hd0
    exact Option.noConfusion hd0
  refine ⟨?_, ?_, ?_⟩
  · simp only [setupSpec]
    rw [natList_getElem? _ _ _ _ hi]
    simp [dcConstr_eq]
  · simp only [setupSpec]
    rw [natList_getElem? _ _ _ _ hi]
    simp [acConstr_eq]
  · rw [spec_price_getElem? hw data ph ci cl i, hd0]
    simp only [Option.map_some']
    rw [hp0, priceConstr_eq]

/-- Claim C2 witness at a concrete two-period model. -/
theorem C2_witness :
    (Model.setup hwW dataW2 1 (1 / 2) (1 / 4) = .ok mW2 ∧
      mW2.data[0]? = some ⟨3 / 10, 1 / 10, 500, 2000⟩) ∧
    (mW2.dc[0]? = some ⟨0, 0, [(Var.sIn 0, 1), (Var.bDis 0, hwW.batt_eff_dis),
        (Var.iChg 0, hwW.inv_eff_chg), (Var.bChg 0, -1), (Var.iDis 0, -1)]⟩ ∧
      mW2.ac[0]? = some ⟨0, 0, [(Var.gIn 0, 1), (Var.iDis 0, hwW.inv_eff_dis),
        (Var.gOut 0, -1), (Var.lOut 0, -1), (Var.iChg 0, -1)]⟩ ∧
      mW2.price[0]? = some (setCoeff ⟨0, 0,
        [(Var.gOut 0, (FutureData.mk (3 / 10) (1 / 10) 500 2000).price_sell),
         (Var.gIn 0, -(FutureData.mk (3 / 10) (1 / 10) 500 2000).price_buy),
         (Var.money 0, -1)]⟩ (Var.cap 0)
        ((if 0 + 1 = dataW2.length then (1 / 4 : ℚ) else 1 / 2) / hwW.capacity))) :=
  ⟨⟨setup_mW2, by norm_num [mW2, setupSpec, dataW2, perturb]⟩,
   C2_bus_and_money hwW dataW2 1 (1 / 2) (1 / 4) mW2 0 ⟨3 / 10, 1 / 10, 500, 2000⟩
     setup_mW2 (by norm_num [mW2, setupSpec, dataW2, perturb])⟩

/-- Claim C3: the objective is maximization of the money variables, each
with coefficient 1 and nothing else; the `chg_inter / capacity` valuation
appears as the `cap` coefficient of every money relation except the last,
whose `cap` coefficient is `chg_last / capacity` (so a single-period
horizon carries only the `chg_last` injection). -/
theorem C3_objective (hw : Hardware) (data : List FutureData) (ph ci cl : ℚ)
    (m : Model)
    (hok : Model.setup hw data ph ci cl = .ok m) :
    m.maximize = true ∧
    m.obj = natList (fun k => (Var.money k, (1 : ℚ))) 0 data.length ∧
    (∀ i, i + 1 < data.length →
      (m.price[i]?).map (fun c => c.coeff (Var.cap i)) = some (ci / hw.capacity)) ∧
    (∀ i, i + 1 = data.length →
      (m.price[i]?).map (fun c => c.coeff (Var.cap i)) = some (cl / hw.capacity)) := by
  obtain ⟨hfb, rfl⟩ := setup_ok_inv hw data ph ci cl m hok
  refine ⟨rfl, rfl, ?_, ?_⟩
  · intro i hi
    rw [spec_price_getElem? hw data ph ci cl i,
      List.getElem?_eq_getElem (by omega)]
    simp only [Option.map_some', Option.some.injEq]
    rw [coeff_setCoeff, if_neg (by omega)]
  · intro i hi
    rw [spec_price_getElem? hw data ph ci cl i,
      List.getElem?_eq_getElem (by omega)]
    simp only [Option.map_some', Option.some.injEq]
    rw [coeff_setCoeff, if_pos hi]

/-- Claim C3 witness at a concrete two-period model. -/
theorem C3_witness :
    Model.setup hwW dataW2 1 (1 / 2) (1 / 4) = .ok mW2 ∧
    (mW2.maximize = true ∧
      mW2.obj = natList (fun k => (Var.money k, (1 : ℚ))) 0 dataW2.length ∧
      (∀ i, i + 1 < dataW2.length →
        (mW2.price[i]?).map (fun c => c.coeff (Var.cap i)) =
          some ((1 / 2) / hwW.capacity)) ∧
      (∀ i, i + 1 = dataW2.length →
        (mW2.price[i]?).map (fun c => c.coeff (Var.cap i)) =
          some ((1 / 4) / hwW.capacity))) :=
  ⟨setup_mW2, C3_objective hwW dataW2 1 (1 / 2) (1 / 4) mW2 setup_mW2⟩

/-- Claim C4: `propose(soc)` sets both bounds of the init equality
constraint to `soc * capacity`, re-solves, and returns the triple
`((g_in_0 - g_out_0) * per_hour, cap_0 / capacity, money_0)` read from the
solution values of period 0's variables. -/
theorem C4_propose (hw : Hardware) (data : List FutureData) (ph ci cl : ℚ)
    (m : Model)
    (hok : Model.setup hw data ph ci cl = .ok m) (hne : data ≠ [])
    (solve : Model → SolveResult) (soc : ℚ) :
    (m.propose solve soc).1 = proposeModel m soc ∧
    (proposeModel m soc).constr_init.lo = soc * m.hardware.capacity ∧
    (proposeModel m soc).constr_init.hi = soc * m.hardware.capacity ∧
    (m.propose solve soc).2 = some
      (((solve (proposeModel m soc)).value (Var.gIn 0) -
        (solve (proposeModel m soc)).value (Var.gOut 0)) * m.per_hour,
       (solve (proposeModel m soc)).value (Var.cap 0) / m.hardware.capacity,
       (solve (proposeModel m soc)).value (Var.money 0)) := by
  obtain ⟨hfb, rfl⟩ := setup_ok_inv hw data ph ci cl m hok
  have hlen : ¬ data.length = 0 := fun h => hne (List.length_eq_zero.mp h)
  refine ⟨rfl, rfl, rfl, ?_⟩
  simp only [Model.propose, setupSpec, if_neg hlen]

/-- Claim C4 witness at a concrete one-period model. -/
theorem C4_witness :
    (Model.setup hwW dataW1 1 0 0 = .ok mW1 ∧ dataW1 ≠ []) ∧
    ((mW1.propose solveZero (1 / 2)).1 = proposeModel mW1 (1 / 2) ∧
      (proposeModel mW1 (1 / 2)).constr_init.lo = (1 / 2) * mW1.hardware.capacity ∧
      (proposeModel mW1 (1 / 2)).constr_init.hi = (1 / 2) * mW1.hardware.capacity ∧
      (mW1.propose solveZero (1 / 2)).2 = some
        (((solveZero (proposeModel mW1 (1 / 2))).value (Var.gIn 0) -
          (solveZero (proposeModel mW1 (1 / 2))).value (Var.gOut 0)) * mW1.per_hour,
         (solveZero (proposeModel mW1 (1 / 2))).value (Var.cap 0) / mW1.hardware.capacity,
         (solveZero (proposeModel mW1 (1 / 2))).value (Var.money 0))) :=
  ⟨⟨setup_mW1, by simp [dataW1]⟩,
   C4_propose hwW dataW1 1 0 0 mW1 setup_mW1 (by simp [dataW1]) solveZero (1 / 2)⟩

/-- Claim C8: the first element yielded by `proposed(soc)` equals the
triple returned by `propose(soc)` on the same model with the same `soc`. -/
theorem C8_proposed_head (hw : Hardware) (data : List FutureData) (ph ci cl : ℚ)
    (m : Model)
    (hok : Model.setup hw data ph ci cl = .ok m) (hne : data ≠ [])
    (solve : Model → SolveResult) (soc : ℚ) :
    ((m.proposed solve soc).2).head? = (m.propose solve soc).2 := by
  obtain ⟨hfb, rfl⟩ := setup_ok_inv hw data ph ci cl m hok
  obtain ⟨dt0, rest, rfl⟩ := List.exists_cons_of_ne_nil hne
  simp [Model.proposed, Model.propose, setupSpec, natList]

/-- Claim C8 witness at a concrete one-period model. -/
theorem C8_witness :
    (Model.setup hwW dataW1 1 0 0 = .ok mW1 ∧ dataW1 ≠ []) ∧
    ((mW1.proposed solveZero (1 / 2)).2).head? = (mW1.propose solveZero (1 / 2)).2 :=
  ⟨⟨setup_mW1, by simp [dataW1]⟩,
   C8_proposed_head hwW dataW1 1 0 0 mW1 setup_mW1 (by simp [dataW1]) solveZero (1 / 2)⟩

/-- Claim C6 counterexample: at a concrete model, the solver oracle
reports infeasible, yet `propose` still returns extracted solution values
and `proposed` still yields one triple per period; no failure is
propagated. -/
theorem C6_counterexample :
    (solveInf (proposeModel mW1 (1 / 2))).status = SolverStatus.infeasible ∧
    ((mW1.propose solveInf (1 / 2)).2).isSome = true ∧
    ((mW1.proposed solveInf (1 / 2)).2).length = 1 := by
  refine ⟨rfl, ?_, ?_⟩
  · simp [Model.propose, mW1, setupSpec, dataW1]
  · simp [Model.proposed, mW1, setupSpec, dataW1, natList]

/-- Claim C6 as amended: `propose` and `proposed` ignore the solver's
reported status entirely: the extraction result depends only on the
reported solution values, `propose` always returns a value triple for a
model built from a non-empty forecast, and `proposed` always yields one
triple per period, whatever status (including infeasible or unbounded)
the solver reports. -/
theorem C6_status_ignored (hw : Hardware) (data : List FutureData) (ph ci cl : ℚ)
    (m : Model)
    (hok : Model.setup hw data ph ci cl = .ok m) (hne : data ≠ [])
    (solve1 solve2 : Model → SolveResult) (soc : ℚ)
    (hv : ∀ mm : Model, (solve1 mm).value = (solve2 mm).value) :
    ((m.propose solve1 soc).2).isSome = true ∧
    m.propose solve1 soc = m.propose solve2 soc ∧
    m.proposed solve1 soc = m.proposed solve2 soc ∧
    ((m.proposed solve1 soc).2).length = data.length := by
  obtain ⟨hfb, rfl⟩ := setup_ok_inv hw data ph ci cl m hok
  have hlen : ¬ data.length = 0 := fun h => hne (List.length_eq_zero.mp h)
  refine ⟨?_, ?_, ?_, ?_⟩
  · simp only [Model.propose, setupSpec, if_neg hlen, Option.isSome_some]
  · simp [Model.propose, hv]
  · simp [Model.proposed, hv]
  · simp [Model.proposed, setupSpec, natList_length]

/-- Claim C6 amended witness: a status-only change of the solver oracle
does not change the results at a concrete model. -/
theorem C6_witness :
    (Model.setup hwW dataW1 1 0 0 = .ok mW1 ∧ dataW1 ≠ [] ∧
      (∀ mm : Model, (solveInf mm).value = (solveZero mm).value)) ∧
    (((mW1.propose solveInf (1 / 2)).2).isSome = true ∧
      mW1.propose solveInf (1 / 2) = mW1.propose solveZero (1 / 2) ∧
      mW1.proposed solveInf (1 / 2) = mW1.proposed solveZero (1 / 2) ∧
      ((mW1.proposed solveInf (1 / 2)).2).length = dataW1.length) :=
  ⟨⟨setup_mW1, by simp [dataW1], fun _ => rfl⟩,
   C6_status_ignored hwW dataW1 1 0 0 mW1 setup_mW1 (by simp [dataW1])
     solveInf solveZero (1 / 2) (fun _ => rfl)⟩

/-- Claim C9: `cap_init` is created with fixed bounds
`[0.05 * capacity, 0.95 * capacity]`; neither `propose` nor `proposed`
changes them (they only move the bounds of the init equality constraint),
and for every `soc` outside `[0.05, 0.95]` the re-bound LP admits no
feasible assignment. -/
theorem C9_cap_init_infeasible (hw : Hardware) (data : List FutureData) (ph ci cl : ℚ)
    (m : Model)
    (hok : Model.setup hw data ph ci cl = .ok m)
    (solve : Model → SolveResult) (soc : ℚ)
    (hcap : 0 < hw.capacity) (hsoc : soc < 5 / 100 ∨ 95 / 100 < soc) :
    m.cap_init = ⟨Var.capInit, some (hw.capacity * (5 / 100)),
      some (hw.capacity * (95 / 100))⟩ ∧
    ((m.propose solve soc).1).cap_init = m.cap_init ∧
    ((m.proposed solve soc).1).cap_init = m.cap_init ∧
    ∀ a : Var → ℚ, ¬ Feasible ((m.propose solve soc).1) a := by
  obtain ⟨hfb, rfl⟩ := setup_ok_inv hw data ph ci cl m hok
  refine ⟨rfl, rfl, rfl, ?_⟩
  intro a hf
  obtain ⟨hinit, -, hci, -, -, -, -⟩ := hf
  simp only [Model.propose, proposeModel, setupSpec, VarDecl.sat, Constr.sat, evalConstr,
    setCoeff, List.filter_nil, List.nil_append, List.map_cons, List.map_nil,
    List.sum_cons, List.sum_nil, one_mul, add_zero, Option.some.injEq, forall_eq'] at hinit hci
  obtain ⟨hlo, hhi⟩ := hinit
  obtain ⟨h1, h2⟩ := hci
  have hv : a Var.capInit = soc * hw.capacity := le_antisymm h2 h1
  rcases hsoc with h | h
  · nlinarith [hlo, hv, mul_lt_mul_of_pos_right h hcap]
  · nlinarith [hhi, hv, mul_lt_mul_of_pos_right h hcap]

/-- Claim C9 witness: at the concrete model, `soc = 0` lies outside the
fixed `cap_init` band and the re-bound LP is infeasible. -/
theorem C9_witness :
    (Model.setup hwW dataW1 1 0 0 = .ok mW1 ∧ (0 : ℚ) < hwW.capacity ∧
      ((0 : ℚ) < 5 / 100 ∨ (95 / 100 : ℚ) < 0)) ∧
    (mW1.cap_init = ⟨Var.capInit, some (hwW.capacity * (5 / 100)),
        some (hwW.capacity * (95 / 100))⟩ ∧
      ((mW1.propose solveZero 0).1).cap_init = mW1.cap_init ∧
      ((mW1.proposed solveZero 0).1).cap_init = mW1.cap_init ∧
      ∀ a : Var → ℚ, ¬ Feasible ((mW1.propose solveZero 0).1) a) :=
  ⟨⟨setup_mW1, by norm_num [hwW], Or.inl (by norm_num)⟩,
   C9_cap_init_infeasible hwW dataW1 1 0 0 mW1 setup_mW1 solveZero 0
     (by norm_num [hwW]) (Or.inl (by norm_num))⟩

/-- Claim C7 counterexample: at two periods per hour, the period-0 load
variable of the concrete model has lower bound 500 (the forecast load) but
upper bound 250 (load divided by `per_hour`), so the two bounds do not
both equal the load. -/
theorem C7_counterexample :
    Model.setup hwW dataW1 2 0 0 = .ok mW7 ∧
    dataW1[0]? = some ⟨3 / 10, 1 / 10, 500, 2000⟩ ∧
    (⟨Var.lOut 0, some 500, some 250⟩ : VarDecl) ∈ mW7.vars ∧
    (∀ d ∈ mW7.vars, d.name = Var.lOut 0 → d.hi ≠ some 500) := by
  refine ⟨setup_mW7, rfl, ?_, ?_⟩
  · norm_num [mW7, setupSpec, hwW, dataW1, dataList, periodVars, perturb]
  · norm_num [mW7, setupSpec, hwW, dataW1, dataList, periodVars, perturb]
    exact fun _ hcontra => Option.noConfusion hcontra

/-- Claim C7 as amended: the load-served variable `l_out` of period `i` is
created with lower bound equal to the point's load but upper bound equal
to the load divided by `per_hour`; the two coincide (fixing `l_out` at the
forecast load) exactly when `per_hour = 1` or the load is zero. -/
theorem C7_load_bounds (hw : Hardware) (data : List FutureData) (ph ci cl : ℚ)
    (m : Model) (i : Nat) (dt : FutureData)
    (hok : Model.setup hw data ph ci cl = .ok m)
    (hdt : m.data[i]? = some dt) :
    (⟨Var.lOut i, some dt.load, some (dt.load / ph)⟩ : VarDecl) ∈ m.vars ∧
    (∀ d ∈ m.vars, d.name = Var.lOut i →
      d = ⟨Var.lOut i, some dt.load, some (dt.load / ph)⟩) ∧
    (dt.load = dt.load / ph ↔ (ph = 1 ∨ dt.load = 0)) := by
  obtain ⟨hfb, rfl⟩ := setup_ok_inv hw data ph ci cl m hok
  simp only [setupSpec] at hdt ⊢
  rw [List.getElem?_map] at hdt
  obtain ⟨dt0, hd0, hp0⟩ := Option.map_eq_some'.mp hdt
  refine ⟨?_, ?_, ?_⟩
  · apply List.mem_flatten.mpr
    refine ⟨periodVars hw ph (perturb dt0) i, ?_, ?_⟩
    · exact (mem_dataList _ _ _ _).mpr ⟨i, dt0, hd0, by rw [Nat.zero_add]⟩
    · rw [hp0]
      simp [periodVars]
  · intro d hd hname
    obtain ⟨s, hs, hds⟩ := List.mem_flatten.mp hd
    obtain ⟨k, dtk, hk, rfl⟩ := (mem_dataList _ _ _ _).mp hs
    rw [Nat.zero_add] at hds
    simp only [periodVars, List.mem_cons, List.not_mem_nil, or_false] at hds
    rcases hds with rfl | rfl | rfl | rfl | rfl | rfl | rfl | rfl | rfl | rfl
    · exact absurd hname (by simp)
    · exact absurd hname (by simp)
    · exact absurd hname (by simp)
    · exact absurd hname (by simp)
    · exact absurd hname (by simp)
    · exact absurd hname (by simp)
    · have hname2 : Var.lOut k = Var.lOut i := hname
      injection hname2 with hki
      subst hki
      rw [hd0] at hk
      injection hk with hdtk
      subst hdtk
      rw [hp0]
    · exact absurd hname (by simp)
    · exact absurd hname (by simp)
    · exact absurd hname (by simp)
  · constructor
    · intro hl
      by_cases hph : ph = 1
      · exact Or.inl hph
      · refine Or.inr ?_
        by_cases hph0 : ph = 0
        · rw [hph0, div_zero] at hl
          exact hl
        · have := hl
          field_simp at this
          rcases mul_eq_mul_left_iff.mp (by linarith [this] : dt.load * ph = dt.load * 1) with
            hph1 | hl0
          · exact absurd hph1 hph
          · exact hl0
    · rintro (rfl | hl0)
      · rw [div_one]
      · rw [hl0, zero_div]

/-- Claim C7 amended witness at the concrete two-periods-per-hour model. -/
theorem C7_witness :
    (Model.setup hwW dataW1 2 0 0 = .ok mW7 ∧
      mW7.data[0]? = some ⟨3 / 10, 1 / 10, 500, 2000⟩) ∧
    ((⟨Var.lOut 0, some (FutureData.mk (3 / 10) (1 / 10) 500 2000).load,
        some ((FutureData.mk (3 / 10) (1 / 10) 500 2000).load / 2)⟩ : VarDecl) ∈ mW7.vars ∧
      (∀ d ∈ mW7.vars, d.name = Var.lOut 0 →
        d = ⟨Var.lOut 0, some (FutureData.mk (3 / 10) (1 / 10) 500 2000).load,
          some ((FutureData.mk (3 / 10) (1 / 10) 500 2000).load / 2)⟩) ∧
      ((FutureData.mk (3 / 10) (1 / 10) 500 2000).load =
          (FutureData.mk (3 / 10) (1 / 10) 500 2000).load / 2 ↔
        ((2 : ℚ) = 1 ∨ (FutureData.mk (3 / 10) (1 / 10) 500 2000).load = 0))) :=
  ⟨⟨setup_mW7, by norm_num [mW7, setupSpec, dataW1, perturb]⟩,
   C7_load_bounds hwW dataW1 2 0 0 mW7 0 ⟨3 / 10, 1 / 10, 500, 2000⟩ setup_mW7
     (by norm_num [mW7, setupSpec, dataW1, perturb])⟩

end BmsSched
